import Mathlib

/-!
Verification development for the TuringBot repository: a shallow embedding of
the config store (`src/core/config.ts`), the module class
(`src/core/modules.ts`), the command-dispatch tree described by the design
document, and the note feature module (`src/modules/note.ts`), together with
theorems settling the documented testable properties.
-/

/-- A JSON-compatible value, the shape of the in-memory config tree
(`botConfig`) and of parsed `config.jsonc` documents.  Objects keep their
keys in insertion order, as JavaScript objects do. -/
inductive Json where
  | obj : List (String × Json) → Json
  | arr : List Json → Json
  | str : String → Json
  | num : Int → Json
  | bool : Bool → Json
  | null : Json

/-- First-match lookup of a key in an association list, the model of reading
a property `o[k]` off a JavaScript object. -/
def jsLookup (kvs : List (String × Json)) (k : String) : Option Json :=
  match kvs with
  | [] => none
  | (k', v) :: rest => if k' = k then some v else jsLookup rest k

/-- Property assignment `o[k] = v` on a JavaScript object: an existing key
keeps its position and gets the new value, a fresh key is appended at the
end (JS insertion order). -/
def jsSetKey (kvs : List (String × Json)) (k : String) (v : Json) :
    List (String × Json) :=
  match kvs with
  | [] => [(k, v)]
  | (k', v') :: rest =>
      if k' = k then (k, v) :: rest else (k', v') :: jsSetKey rest k v

/-- Reading the value addressed by a path of object keys, used to state what
"the value at that path" means for the in-memory tree and for a parsed file.
The empty path addresses the whole document. -/
def getJson (j : Json) (path : List String) : Option Json :=
  match j, path with
  | j, [] => some j
  | .obj kvs, k :: rest =>
      match jsLookup kvs k with
      | some v => getJson v rest
      | none => none
  | _, _ :: _ => none

/-- Outcome of the key-existence walk at the top of `editConfigOption`
(`for (let i in location) { if (location[i] in currentPosition) ... }`). -/
inductive WalkResult where
  | ok : WalkResult
  | missing : WalkResult
  | typeError : WalkResult
deriving DecidableEq

/-- The verification loop of `editConfigOption` (config.ts lines 66-82): walk
the segments in order; a segment checked with `in` against an object that
lacks it yields `missing` (the logged, silent cancel branch); a segment
checked with `in` against a primitive value faithfully models the JavaScript
`TypeError` that the `in` operator raises on non-objects.  Only the own-key
part of `in` is modelled: a segment that is an `Object.prototype`-inherited
property name (see `objectPrototypeMembers`) would pass the real check and
send the walk into a non-JSON function object, outside this tree model, so
theorems about the `missing` branch carry a no-inherited-segment
hypothesis. -/
def walkPath (j : Json) (path : List String) : WalkResult :=
  match j, path with
  | _, [] => .ok
  | .obj kvs, k :: rest =>
      match jsLookup kvs k with
      | some v => walkPath v rest
      | none => .missing
  | _, _ :: _ => .typeError

/-- The `_set` method of `botConfig` (config.ts lines 34-41): walk to the
next-to-last segment by plain reads, then assign
`schema[path[path.length - 1]] = value`.  For the empty path,
`path[path.length - 1]` is `path[-1]`, i.e. `undefined`, and JavaScript
coerces the `undefined` key to the string key `"undefined"`.  The branches
descending through a missing key or a primitive are unreachable after a
successful `walkPath` and are modelled as the identity. -/
def setAtPath (j : Json) (path : List String) (v : Json) : Json :=
  match j, path with
  | .obj kvs, [] => .obj (jsSetKey kvs "undefined" v)
  | .obj kvs, [k] => .obj (jsSetKey kvs k v)
  | .obj kvs, k :: rest =>
      match jsLookup kvs k with
      | some c => .obj (jsSetKey kvs k (setAtPath c rest v))
      | none => .obj kvs
  | j, _ => j

/-- Modelled from the contract of the external `jsonc-parser` library used at
config.ts lines 91-94: `applyEdits(file, modify(file, location, newValue))`
produces a document whose parse is the old parse with `location` set to
`newValue`; with an empty path `modify` replaces the whole document. -/
def fileSetAtPath (j : Json) (path : List String) (v : Json) : Json :=
  match path with
  | [] => v
  | _ :: _ => setAtPath j path v

/-- Observable outcome of one `editConfigOption` call: the in-memory tree,
the parse of the backing file after all callbacks have run, how many
error-category and info-category records were logged, and whether the file
was written. -/
structure EditState where
  tree : Json
  file : Json
  errorLogs : Nat
  infoLogs : Nat
  fileWritten : Bool

/-- `botConfig.editConfigOption` (config.ts lines 64-107) over an in-memory
tree and the parse of the backing file.  A missing segment logs one
error-category record and returns with no mutation and no write; a segment
that lands on a primitive raises a `TypeError` (modelled as `Except.error`);
otherwise `_set` updates the tree, the jsonc edit updates the file, and the
write callback logs one info-category record. -/
def editConfigOption (tree file : Json) (path : List String) (v : Json) :
    Except String EditState :=
  match walkPath tree path with
  | .missing => .ok ⟨tree, file, 1, 0, false⟩
  | .typeError =>
      .error "TypeError: cannot use in operator to search in a primitive"
  | .ok => .ok ⟨setAtPath tree path v, fileSetAtPath file path v, 0, 1, true⟩

/-- Skip JSON whitespace. -/
def skipWs (cs : List Char) : List Char :=
  match cs with
  | c :: rest =>
      if c = ' ' ∨ c = '\n' ∨ c = '\t' ∨ c = '\r' then skipWs rest else c :: rest
  | [] => []

/-- Match an expected literal character sequence, returning the remainder. -/
def expectChars (expected cs : List Char) : Option (List Char) :=
  match expected, cs with
  | [], cs => some cs
  | e :: es, c :: rest => if c = e then expectChars es rest else none
  | _ :: _, [] => none

/-- Parse the body of a string literal after its opening quote, handling
backslash escapes by taking the escaped character literally. -/
def parseStringBody : List Char → Option (String × List Char)
  | [] => none
  | c :: rest =>
      if c = '"' then some ("", rest)
      else if c = '\\' then
        match rest with
        | c2 :: rest2 =>
            (parseStringBody rest2).map (fun p => (String.mk (c2 :: p.1.data), p.2))
        | [] => none
      else (parseStringBody rest).map (fun p => (String.mk (c :: p.1.data), p.2))

/-- Split a leading run of decimal digits off a character list. -/
def parseDigits (cs : List Char) : List Char × List Char :=
  match cs with
  | c :: rest =>
      if c.isDigit then
        let p := parseDigits rest
        (c :: p.1, p.2)
      else ([], c :: rest)
  | [] => ([], [])

/-- Decimal digits to a natural number. -/
def digitsToNat (ds : List Char) : Nat :=
  ds.foldl (fun acc c => acc * 10 + (c.toNat - 48)) 0

mutual

/-- Fuel-bounded recursive-descent parser for a JSON value (objects, arrays,
strings, integers, `true`, `false`, `null`).  Modelled from the contract of
the external `jsonc-parser` `parse` function used at config.ts line 26: it
is TOTAL and never throws; on input from which no value can be produced it
returns `none` (the library returns `undefined` and records its errors in a
side array that the caller does not pass).  The library's partial-value
error recovery, comments, and floating-point numbers are not modelled. -/
def parseValue (fuel : Nat) (cs : List Char) : Option (Json × List Char) :=
  match fuel with
  | 0 => none
  | fuel + 1 =>
      match skipWs cs with
      | [] => none
      | c :: rest =>
          if c = '"' then
            (parseStringBody rest).map (fun p => (Json.str p.1, p.2))
          else if c = '\x7b' then
            match skipWs rest with
            | '\x7d' :: r2 => some (Json.obj [], r2)
            | r2 => (parseMembers fuel r2).map (fun p => (Json.obj p.1, p.2))
          else if c = '[' then
            match skipWs rest with
            | ']' :: r2 => some (Json.arr [], r2)
            | r2 => (parseElems fuel r2).map (fun p => (Json.arr p.1, p.2))
          else if c = 't' then
            (expectChars ['r', 'u', 'e'] rest).map (fun r => (Json.bool true, r))
          else if c = 'f' then
            (expectChars ['a', 'l', 's', 'e'] rest).map (fun r => (Json.bool false, r))
          else if c = 'n' then
            (expectChars ['u', 'l', 'l'] rest).map (fun r => (Json.null, r))
          else if c = '-' then
            match parseDigits rest with
            | ([], _) => none
            | (ds, r) => some (Json.num (-(digitsToNat ds : Int)), r)
          else if c.isDigit then
            match parseDigits (c :: rest) with
            | ([], _) => none
            | (ds, r) => some (Json.num (digitsToNat ds : Int), r)
          else none

/-- Parse the members of an object after its opening brace. -/
def parseMembers (fuel : Nat) (cs : List Char) :
    Option (List (String × Json) × List Char) :=
  match fuel with
  | 0 => none
  | fuel + 1 =>
      match skipWs cs with
      | '"' :: rest =>
          match parseStringBody rest with
          | some (k, r1) =>
              match skipWs r1 with
              | ':' :: r2 =>
                  match parseValue fuel r2 with
                  | some (v, r3) =>
                      match skipWs r3 with
                      | ',' :: r4 =>
                          (parseMembers fuel r4).map
                            (fun p => ((k, v) :: p.1, p.2))
                      | '\x7d' :: r4 => some ([(k, v)], r4)
                      | _ => none
                  | none => none
              | _ => none
          | none => none
      | _ => none

/-- Parse the elements of an array after its opening bracket. -/
def parseElems (fuel : Nat) (cs : List Char) : Option (List Json × List Char) :=
  match fuel with
  | 0 => none
  | fuel + 1 =>
      match parseValue fuel cs with
      | some (v, r1) =>
          match skipWs r1 with
          | ',' :: r2 => (parseElems fuel r2).map (fun p => (v :: p.1, p.2))
          | ']' :: r2 => some ([v], r2)
          | _ => none
      | none => none

end

/-- `parse` of jsonc-parser applied to a whole document: best-effort value or
`none`, never an exception (trailing garbage after a value is ignored, as
the library only reports it through its unused errors array). -/
def parseJSONC (s : String) : Option Json :=
  (parseValue (s.length + 1) s.data).map Prod.fst

/-- The own enumerable index properties of a JavaScript string or array
value: decimal keys "0", "1", ... paired with the elements (the
non-enumerable `length` property is not copied by `Object.assign`). -/
def indexedProps (vs : List Json) : List (String × Json) :=
  vs.enum.map (fun p => (Nat.repr p.1, p.2))

/-- `Object.assign(target, src)` as used at config.ts line 26: copies the
source's own enumerable properties onto the target in order and never
throws.  An object source contributes its keys; an array source its index
properties; a string source the index properties of its characters; an
`undefined`, number, boolean or null source contributes nothing.  The
target `botConfig` is always an object, so other targets are left
unchanged. -/
def objectAssign (target : Json) (src : Option Json) : Json :=
  match target, src with
  | .obj t, some (.obj s) =>
      .obj (s.foldl (fun acc kv => jsSetKey acc kv.1 kv.2) t)
  | .obj t, some (.arr vs) =>
      .obj ((indexedProps vs).foldl (fun acc kv => jsSetKey acc kv.1 kv.2) t)
  | .obj t, some (.str s) =>
      .obj ((indexedProps (s.data.map (fun c => Json.str (String.mk [c])))).foldl
        (fun acc kv => jsSetKey acc kv.1 kv.2) t)
  | t, _ => t

/-- `botConfig.readConfigFromFileSystem` (config.ts lines 22-30).  The
filesystem is modelled as `Option String`: `none` means `readFileSync`
throws (file missing or unreadable), which the catch block converts into
the startup error; otherwise the file contents are parsed by the
never-throwing `parseJSONC` and merged into `botConfig` by `Object.assign`,
so the catch block is not reached and the call returns normally. -/
def readConfigFromFileSystem (fileContents : Option String) (botConfig : Json) :
    Except String Json :=
  match fileContents with
  | none => .error "Unable to locate or process config.jsonc, are you sure it exists?"
  | some s => .ok (objectAssign botConfig (parseJSONC s))

/-- Log record categories from `src/core/logger.ts` as consumed by
`src/core/modules.ts` and `src/core/config.ts`. -/
inductive EventCategory where
  | error : EventCategory
  | warning : EventCategory
  | info : EventCategory
deriving DecidableEq

/-- One record passed to `eventLogger.logEvent`. -/
structure LogRecord where
  category : EventCategory
  location : String
  description : String
deriving DecidableEq

/-- One entry of the config's `modules` mapping: `{enabled: bool, ...}`;
the feature-specific options are irrelevant to every claim and elided. -/
structure ModuleConfig where
  enabled : Bool
deriving DecidableEq

/-- Lookup in the `modules` mapping of the config. -/
def cfgLookup (m : List (String × ModuleConfig)) (k : String) :
    Option ModuleConfig :=
  match m with
  | [] => none
  | (k', v) :: rest => if k' = k then some v else cfgLookup rest k

/-- The `Module` class of `src/core/modules.ts`: a named command node with
aliases, a help message, an enable flag, the config entry found for its
root module name, and exclusively owned submodules.  The `executeCommand`
callback itself is not part of the state; dispatch results name the module
whose callback would run. -/
inductive ModuleT where
  | mk (command : String) (aliases : List String) (helpMessage : String)
      (submodules : List ModuleT) (enabled : Bool) (rootModuleName : String)
      (config : Option ModuleConfig) : ModuleT

def ModuleT.command : ModuleT → String
  | .mk c _ _ _ _ _ _ => c

def ModuleT.aliases : ModuleT → List String
  | .mk _ a _ _ _ _ _ => a

def ModuleT.helpMessage : ModuleT → String
  | .mk _ _ h _ _ _ _ => h

def ModuleT.submodules : ModuleT → List ModuleT
  | .mk _ _ _ s _ _ _ => s

def ModuleT.enabled : ModuleT → Bool
  | .mk _ _ _ _ e _ _ => e

def ModuleT.rootModuleName : ModuleT → String
  | .mk _ _ _ _ _ r _ => r

def ModuleT.config : ModuleT → Option ModuleConfig
  | .mk _ _ _ _ _ _ c => c

/-- The warning text emitted by the constructor when no config entry exists
for the root module name (modules.ts lines 104-113). -/
def noConfigWarning (rootName : String) : String :=
  "No config found for \"" ++ rootName ++ "\", " ++
    "all modules and submodules for " ++ rootName ++ " will be disabled."

/-- The property names every plain JavaScript object (such as the parsed
`botConfig.modules`) inherits from `Object.prototype`; the `in` operator
reports all of them as present even though they are not own keys. -/
def objectPrototypeMembers : List String :=
  ["constructor", "hasOwnProperty", "isPrototypeOf", "propertyIsEnumerable",
    "toLocaleString", "toString", "valueOf", "__proto__", "__defineGetter__",
    "__defineSetter__", "__lookupGetter__", "__lookupSetter__"]

/-- The check `this.rootModuleName in botConfig.modules` (modules.ts line
100): the `in` operator finds own keys AND everything inherited from
`Object.prototype`. -/
def jsInModules (modulesCfg : List (String × ModuleConfig)) (k : String) : Bool :=
  (cfgLookup modulesCfg k).isSome || objectPrototypeMembers.contains k

/-- The JavaScript value the constructor leaves in `this.enabled`: a real
boolean, or `undefined` when `this.config.enabled` is read off a value that
has no `enabled` property (note that `undefined` is falsy but is NOT the
value `false`). -/
inductive EnabledValue where
  | bool (b : Bool) : EnabledValue
  | undefined : EnabledValue
deriving DecidableEq

/-- What `this.config = botConfig.modules[this.rootModuleName]` captured:
an own config entry, or — when the name passed the `in` check only through
the prototype chain — the inherited `Object.prototype` member of that
name (a function or the prototype object), which has no `enabled`
property. -/
inductive ConfigRef where
  | entry (c : ModuleConfig) : ConfigRef
  | inheritedMember (name : String) : ConfigRef
deriving DecidableEq

/-- The fields of a freshly constructed `Module` that the constructor
assigns (aliases start empty and submodules are added later by
`registerSubmodule`). -/
structure ConstructedModule where
  command : String
  helpMessage : String
  rootModuleName : String
  config : Option ConfigRef
  enabled : EnabledValue
deriving DecidableEq

/-- The `Module` constructor (modules.ts lines 84-118) given the config's
`modules` mapping.  `rootModuleName?` models the optional parameter; the
JavaScript truthiness test `if (rootModuleName)` makes the empty string fall
back to `command` as well.  The existence test is the JavaScript `in`
operator, so it also accepts names inherited from `Object.prototype`: for
those, `this.config` becomes the inherited member and
`this.enabled = this.config.enabled` becomes `undefined`, with no warning
logged.  A name with an own config entry copies that entry's `enabled`; a
name the `in` check rejects leaves the module disabled (`enabled = false`)
and logs the warning-category record.  Every construction ends with the
info-category registration record, and the function is total: with a
`modules` mapping present, construction never throws. -/
def constructModule (command helpMessage : String) (rootModuleName? : Option String)
    (modulesCfg : List (String × ModuleConfig)) :
    ConstructedModule × List LogRecord :=
  let rootName :=
    match rootModuleName? with
    | some r => if r = "" then command else r
    | none => command
  if jsInModules modulesCfg rootName then
    match cfgLookup modulesCfg rootName with
    | some cfg =>
        (⟨command, helpMessage, rootName, some (.entry cfg), .bool cfg.enabled⟩,
          [⟨.info, "core", "New module registered: " ++ command⟩])
    | none =>
        (⟨command, helpMessage, rootName, some (.inheritedMember rootName),
            .undefined⟩,
          [⟨.info, "core", "New module registered: " ++ command⟩])
  else
    (⟨command, helpMessage, rootName, none, .bool false⟩,
      [⟨.warning, "core", noConfigWarning rootName⟩,
        ⟨.info, "core", "New module registered: " ++ command⟩])

/-- `registerSubmodule` (modules.ts lines 124-126): push onto `submodules`. -/
def registerSubmodule (m : ModuleT) (child : ModuleT) : ModuleT :=
  match m with
  | .mk c a h subs e r cfg => .mk c a h (subs ++ [child]) e r cfg

/-- ASCII lowercasing of a string, character by character. -/
def lowerStr (s : String) : String :=
  String.mk (s.data.map Char.toLower)

/-- Split a character list into maximal space-free tokens, accumulator
style; `cur` holds the current token reversed. -/
def splitTokensAux (cs cur : List Char) (acc : List String) : List String :=
  match cs with
  | [] =>
      if cur.isEmpty then acc.reverse
      else (String.mk cur.reverse :: acc).reverse
  | c :: rest =>
      if c = ' ' then
        if cur.isEmpty then splitTokensAux rest [] acc
        else splitTokensAux rest [] (String.mk cur.reverse :: acc)
      else splitTokensAux rest (c :: cur) acc

/-- The whitespace-delimited tokens of an input text. -/
def tokenizeInput (s : String) : List String :=
  splitTokensAux s.data [] []

/-- Case-insensitive match of one whitespace-delimited token against a
module's command or any of its aliases (spec section 4.1). -/
def matchesToken (m : ModuleT) (tok : String) : Bool :=
  lowerStr m.command == lowerStr tok
    || m.aliases.any (fun a => lowerStr a == lowerStr tok)

/-- First enabled module in the list matched by the token; disabled modules
are skipped so that neither they nor anything beneath them is reachable. -/
def findEnabledMatch (ms : List ModuleT) (tok : String) : Option ModuleT :=
  ms.find? (fun m => m.enabled && matchesToken m tok)

/-- What one dispatch resolves to: invoke a leaf module's `executeCommand`
with the remaining tokens, synthesize a help response from a module's
children, or nothing. -/
inductive DispatchResult where
  | execute (m : ModuleT) (args : List String) : DispatchResult
  | help (m : ModuleT) : DispatchResult
  | noMatch : DispatchResult

/-- Modelled from the spec: the command-resolution algorithm of section 4.1
(the dispatcher itself is not among the repository's source files; only the
`Module` tree it walks is).  Within a matched module: if it has no
submodules its `executeCommand` is invoked with the remaining tokens; else
the next token is matched against the enabled children, recursing, and a
missing or unmatched next token falls back to the synthesized help
response. -/
def resolveDispatch (m : ModuleT) (tokens : List String) : DispatchResult :=
  if m.submodules.isEmpty then .execute m tokens
  else
    match tokens with
    | [] => .help m
    | t :: rest =>
        match findEnabledMatch m.submodules t with
        | some c => resolveDispatch c rest
        | none => .help m

/-- Modelled from the spec: top-level dispatch of section 4.1 — split the
input text on spaces, match the first token against the enabled root
modules, and resolve inside the match. -/
def dispatch (roots : List ModuleT) (input : String) : DispatchResult :=
  match tokenizeInput input with
  | [] => .noMatch
  | t :: rest =>
      match findEnabledMatch roots t with
      | some m => resolveDispatch m rest
      | none => .noMatch

/-- A module occurrence reachable from the roots through enabled nodes only:
either an enabled root, or an enabled child of a reachable module.  Dispatch
may only execute such occurrences. -/
inductive EnabledReach (roots : List ModuleT) : ModuleT → Prop where
  | root {m : ModuleT} : m ∈ roots → m.enabled = true → EnabledReach roots m
  | child {p c : ModuleT} : EnabledReach roots p → c ∈ p.submodules →
      c.enabled = true → EnabledReach roots c

/-- A note as stored in the document store (`note.ts` interface `Note`):
contents, the snowflake id of the author, and the formatted date. -/
structure Note where
  contents : String
  addedBy : String
  date : String
deriving DecidableEq

/-- The `notes` collection of the document store: one record per user id,
each holding that user's ordered note list (`userRecord`). -/
abbrev NoteStore := List (String × List Note)

/-- `findOne({user: user.id})` on the notes collection (the body of
`getRecord`, note.ts lines 36-41). -/
def findRecord (s : NoteStore) (user : String) : Option (List Note) :=
  match s with
  | [] => none
  | (u, ns) :: rest => if u = user then some ns else findRecord rest user

/-- `updateOne({user}, {$set: {notes}}, {upsert: true})`: replace the notes
of an existing record, inserting the record if absent. -/
def updateRecord (s : NoteStore) (user : String) (notes : List Note) : NoteStore :=
  match s with
  | [] => [(user, notes)]
  | (u, ns) :: rest =>
      if u = user then (u, notes) :: rest
      else (u, ns) :: updateRecord rest user notes

/-- `insertOne(structuredRecord)`: append a new record. -/
def insertRecord (s : NoteStore) (user : String) (notes : List Note) : NoteStore :=
  s ++ [(user, notes)]

/-- `deleteOne({user: user.id})` (the body of `deleteRecord`, note.ts lines
46-51): drop the first record of that user. -/
def deleteRecordOp (s : NoteStore) (user : String) : NoteStore :=
  match s with
  | [] => []
  | (u, ns) :: rest => if u = user then rest else (u, ns) :: deleteRecordOp rest user

/-- One document-store call attempted by a handler, for tracing which calls
an invocation performs. -/
inductive StoreOp where
  | findOne (user : String) : StoreOp
  | updateOne (user : String) : StoreOp
  | insertOne (user : String) : StoreOp
  | deleteOne (user : String) : StoreOp
deriving DecidableEq

/-- A handler's reply: a success embed, an error embed, a file attachment
whose payload is the parsed JSON it carries, or no reply. -/
inductive Reply where
  | success (msg : String) : Reply
  | error (msg : String) : Reply
  | attachment (payload : Json) : Reply
  | silent : Reply

/-- The observable outcome of one note-command invocation: the store after
the call, the reply value the handler returns to the dispatcher, and the
document-store calls it attempted, in order. -/
structure HandlerOutcome where
  store : NoteStore
  reply : Reply
  ops : List StoreOp

/-- JSON shape of one note inside the `get` attachment
(`JSON.stringify({notes: record.notes})`, note.ts line 202). -/
def noteJson (n : Note) : Json :=
  .obj [("contents", .str n.contents), ("addedBy", .str n.addedBy),
    ("date", .str n.date)]

/-- The `note add` subcommand handler (note.ts lines 58-136) for a resolved
target user.  `caller` is `interaction.user.id`, `target` the resolved
`user.id`, `date` the already-formatted `util.formatDate(new Date())`.
`updateFails`/`insertFails` inject a promise rejection (carrying the
error's name) into the corresponding document-store call.  A rejected call
leaves the store unchanged and its `.catch` callback builds an error embed
whose value is the discarded result of the awaited expression — control
then falls through to the trailing `return successEmbed(...)`, exactly as
in the source. -/
def addHandler (store : NoteStore) (caller target contents date : String)
    (updateFails insertFails : Option String) : HandlerOutcome :=
  if caller = target then
    ⟨store, .error "You cannot add a note for yourself", []⟩
  else
    let note : Note := ⟨contents, caller, date⟩
    match findRecord store target with
    | some notes =>
        match updateFails with
        | some _ =>
            ⟨store, .success "Succesfully added that note",
              [.findOne target, .updateOne target]⟩
        | none =>
            ⟨updateRecord store target (notes ++ [note]),
              .success "Succesfully added that note",
              [.findOne target, .updateOne target]⟩
    | none =>
        match insertFails with
        | some _ =>
            ⟨store, .success "Succesfully added that note",
              [.findOne target, .insertOne target]⟩
        | none =>
            ⟨insertRecord store target [note],
              .success "Succesfully added that note",
              [.findOne target, .insertOne target]⟩

/-- The `note clear` subcommand handler (note.ts lines 138-174) for a
resolved target user with tag `targetTag`.  `deleteFails` injects a promise
rejection into `deleteOne`; as in the source, the `.catch` callback's error
embed is discarded and the success embed is returned anyway. -/
def clearHandler (store : NoteStore) (target targetTag : String)
    (deleteFails : Option String) : HandlerOutcome :=
  match findRecord store target with
  | none =>
      ⟨store, .error ("`" ++ targetTag ++ "` doesn\x27t have any notes"),
        [.findOne target]⟩
  | some _ =>
      match deleteFails with
      | some _ =>
          ⟨store, .success ("Succesfully removed notes for `" ++ targetTag ++ "`"),
            [.findOne target, .deleteOne target]⟩
      | none =>
          ⟨deleteRecordOp store target,
            .success ("Succesfully removed notes for `" ++ targetTag ++ "`"),
            [.findOne target, .deleteOne target]⟩

/-- The `note get` subcommand handler (note.ts lines 176-215) for a resolved
target user with tag `targetTag`: no record yields the error embed; a
record is serialized as `{"notes": [...]}` and sent as a file attachment
(the reply payload is the parse of that JSON). -/
def getHandler (store : NoteStore) (target targetTag : String) : HandlerOutcome :=
  match findRecord store target with
  | none =>
      ⟨store, .error ("`" ++ targetTag ++ "` doesn\x27t have any notes"),
        [.findOne target]⟩
  | some notes =>
      ⟨store, .attachment (.obj [("notes", .arr (notes.map noteJson))]),
        [.findOne target]⟩

theorem jsLookup_jsSetKey_self (kvs : List (String × Json)) (k : String) (v : Json) :
    jsLookup (jsSetKey kvs k v) k = some v := by
  induction kvs with
  | nil => simp [jsSetKey, jsLookup]
  | cons hd tl ih =>
      obtain ⟨k', v'⟩ := hd
      by_cases h : k' = k
      · simp [jsSetKey, jsLookup, h]
      · simp [jsSetKey, jsLookup, h, ih]

theorem getJson_setAtPath (t : Json) (p : List String) (v : Json)
    (hok : walkPath t p = .ok) (hne : p ≠ []) :
    getJson (setAtPath t p v) p = some v := by
  induction p generalizing t with
  | nil => exact absurd rfl hne
  | cons k rest ih =>
      cases t with
      | obj kvs =>
          cases rest with
          | nil => simp [setAtPath, getJson, jsLookup_jsSetKey_self]
          | cons k2 r2 =>
              cases hl : jsLookup kvs k with
              | none => simp [walkPath, hl] at hok
              | some c =>
                  have h2 : walkPath c (k2 :: r2) = .ok := by
                    simpa [walkPath, hl] using hok
                  simpa [setAtPath, hl, getJson, jsLookup_jsSetKey_self] using
                    ih c h2
      | arr l => simp [walkPath] at hok
      | str s => simp [walkPath] at hok
      | num n => simp [walkPath] at hok
      | bool b => simp [walkPath] at hok
      | null => simp [walkPath] at hok

/-- Claim C3.  The claim says that whenever any part of the target path is
absent from the in-memory tree, `editConfigOption` logs an error and returns
normally without mutating anything.  The code violates this: with the
in-memory tree `{"a": 5}` and location `["a", "b", "c"]`, the part
`["a", "b"]` of the path is absent (the walk descends into the primitive
`5`), and the `in` operator applied to that primitive raises a `TypeError`
instead of logging and returning — the call rejects, and no error record is
logged.  This contradicts the function's own documentation ("Will return
silently and log an error if `location` does not point to a valid location
in the config"), so it is a bug in the code. -/
theorem editConfigOption_primitive_segment_throws :
    editConfigOption (Json.obj [("a", Json.num 5)]) (Json.obj [("a", Json.num 5)])
        ["a", "b", "c"] Json.null
      = .error "TypeError: cannot use in operator to search in a primitive" := rfl

/-- Claim C3, companion fact: on a path none of whose segments is an
`Object.prototype`-inherited property name (for those the JavaScript `in`
operator would consult the prototype chain and leave the JSON-tree model,
see `objectPrototypeMembers`) and whose first missing segment is checked
against an object (so the `in` test is legal), the call does behave as
claimed: no in-memory change, no file write, one error-category log
record, normal return. -/
theorem editConfigOption_missing_key_noop (tree file : Json)
    (path : List String) (v : Json)
    (_hproto : ∀ s ∈ path, objectPrototypeMembers.contains s = false)
    (hmiss : walkPath tree path = .missing) :
    editConfigOption tree file path v = .ok ⟨tree, file, 1, 0, false⟩ := by
  simp [editConfigOption, hmiss]

/-- Claim C3, companion witness: the no-op branch evaluated at a concrete
missing key. -/
theorem editConfigOption_missing_key_noop_witness :
    editConfigOption (Json.obj [("a", Json.num 5)]) (Json.obj [("a", Json.num 5)])
        ["b"] Json.null
      = .ok ⟨Json.obj [("a", Json.num 5)], Json.obj [("a", Json.num 5)], 1, 0, false⟩ :=
  editConfigOption_missing_key_noop (Json.obj [("a", Json.num 5)])
    (Json.obj [("a", Json.num 5)]) ["b"] Json.null (by decide) rfl

/-- Claim C4, counterexample.  The claim quantifies over every path all of
whose segments exist in the in-memory tree; the empty path has no segments,
so it is in scope, and every fresh load mirrors the file into memory.  But
`editConfigOption([], v)` passes the existence walk vacuously and `_set`
then executes `schema[path[-1]] = value`, i.e. it sets the key
`"undefined"`; the in-memory value at the empty path (the whole tree) does
not become `v`. -/
theorem editConfigOption_empty_path_counterexample :
    editConfigOption (Json.obj [("a", Json.num 1)]) (Json.obj [("a", Json.num 1)])
        [] (Json.num 2)
      = .ok ⟨Json.obj [("a", Json.num 1), ("undefined", Json.num 2)],
          Json.num 2, 0, 1, true⟩
    ∧ getJson (Json.obj [("a", Json.num 1), ("undefined", Json.num 2)]) []
        ≠ some (Json.num 2) :=
  ⟨rfl, by intro h; injection h with h2; exact Json.noConfusion h2⟩

/-- Claim C4 (amended to nonempty paths).  For every nonempty path all of
whose segments exist in the current in-memory tree (which mirrors the
backing file, as after a fresh load), `editConfigOption` returns normally,
the in-memory value at the path equals the new value, and the parse of the
rewritten backing file carries the same value at that path. -/
theorem editConfigOption_valid_path (tree : Json) (path : List String)
    (v : Json) (hok : walkPath tree path = .ok) (hne : path ≠ []) :
    editConfigOption tree tree path v
        = .ok ⟨setAtPath tree path v, setAtPath tree path v, 0, 1, true⟩
      ∧ getJson (setAtPath tree path v) path = some v := by
  refine ⟨?_, getJson_setAtPath tree path v hok hne⟩
  cases path with
  | nil => exact absurd rfl hne
  | cons k rest => simp [editConfigOption, hok, fileSetAtPath]

/-- Claim C4, witness: disabling `modules.note` in a concrete mirrored
config updates both the in-memory tree and the file parse. -/
theorem editConfigOption_valid_path_witness :
    editConfigOption
          (Json.obj [("modules", Json.obj [("note", Json.bool true)])])
          (Json.obj [("modules", Json.obj [("note", Json.bool true)])])
          ["modules", "note"] (Json.bool false)
        = .ok ⟨setAtPath (Json.obj [("modules", Json.obj [("note", Json.bool true)])])
              ["modules", "note"] (Json.bool false),
            setAtPath (Json.obj [("modules", Json.obj [("note", Json.bool true)])])
              ["modules", "note"] (Json.bool false), 0, 1, true⟩
      ∧ getJson
          (setAtPath (Json.obj [("modules", Json.obj [("note", Json.bool true)])])
            ["modules", "note"] (Json.bool false))
          ["modules", "note"] = some (Json.bool false) :=
  editConfigOption_valid_path
    (Json.obj [("modules", Json.obj [("note", Json.bool true)])])
    ["modules", "note"] (Json.bool false) rfl (by simp)

/-- Claim C5.  The claim says `readConfigFromFileSystem` throws both when
the file is missing and when its content is unparsable.  The missing-file
half holds (first conjunct).  The unparsable half is false on the code: the
jsonc-parser `parse` call never throws — it reports errors through an
argument the call site does not pass and returns no value — and
`Object.assign` with an undefined source is a no-op, so the `catch` branch
is unreachable for parse failures and startup continues with `botConfig`
unpopulated (second and third conjuncts, on the unparsable content
`"@@@"`). -/
theorem readConfigFromFileSystem_parse_never_throws :
    readConfigFromFileSystem none (Json.obj [])
        = .error "Unable to locate or process config.jsonc, are you sure it exists?"
      ∧ parseJSONC "@@@" = none
      ∧ readConfigFromFileSystem (some "@@@") (Json.obj []) = .ok (Json.obj []) :=
  ⟨rfl, rfl, rfl⟩

/-- Claim C2, counterexample.  The root module name `"toString"` is absent
from the config's `modules` mapping, but the constructor's existence test
is the JavaScript `in` operator, which finds `"toString"` on
`Object.prototype`: the real constructor takes the config-found branch,
sets `this.config` to the inherited function, sets `enabled` to
`undefined` (which is not the value `false`), and logs NO warning-category
record — falsifying the claim at this input. -/
theorem constructModule_inherited_name_counterexample :
    cfgLookup [("note", ⟨true⟩)] "toString" = none
      ∧ (constructModule "toString" "help" none [("note", ⟨true⟩)]).1.enabled
          = .undefined
      ∧ ((constructModule "toString" "help" none [("note", ⟨true⟩)]).2.filter
            (fun r => r.category == EventCategory.warning)).length = 0 :=
  ⟨rfl, rfl, rfl⟩

/-- Claim C2 (amended to exclude `Object.prototype`-inherited names).
Constructing a root module (no explicit root-module-name argument) whose
command is absent from the config's `modules` mapping AND is not one of
the property names every plain object inherits from `Object.prototype`
completes without throwing (the constructor model is a total function),
leaves `enabled` false, and logs exactly one warning-category record (the
other record logged during construction is the info-category registration
record). -/
theorem constructModule_missing_config (command helpMessage : String)
    (modulesCfg : List (String × ModuleConfig))
    (habsent : cfgLookup modulesCfg command = none)
    (hproto : objectPrototypeMembers.contains command = false) :
    (constructModule command helpMessage none modulesCfg).1.enabled
        = .bool false
      ∧ ((constructModule command helpMessage none modulesCfg).2.filter
            (fun r => r.category == EventCategory.warning)).length = 1 := by
  have hin : jsInModules modulesCfg command = false := by
    unfold jsInModules
    rw [habsent, hproto]
    rfl
  simp only [constructModule, hin]
  exact ⟨rfl, rfl⟩

/-- Claim C2, witness: constructing a `note` root module against a config
whose `modules` mapping only has a `warn` entry (`"note"` is not an
inherited `Object.prototype` name). -/
theorem constructModule_missing_config_witness :
    (constructModule "note" "Add or delete notes from users" none
          [("warn", ⟨true⟩)]).1.enabled = .bool false
      ∧ ((constructModule "note" "Add or delete notes from users" none
            [("warn", ⟨true⟩)]).2.filter
            (fun r => r.category == EventCategory.warning)).length = 1 :=
  constructModule_missing_config "note" "Add or delete notes from users"
    [("warn", ⟨true⟩)] rfl rfl

theorem enabledReach_enabled {roots : List ModuleT} {m : ModuleT}
    (h : EnabledReach roots m) : m.enabled = true := by
  cases h with
  | root _ he => exact he
  | child _ _ he => exact he

theorem findEnabledMatch_mem {ms : List ModuleT} {tok : String} {c : ModuleT}
    (h : findEnabledMatch ms tok = some c) : c ∈ ms ∧ c.enabled = true := by
  unfold findEnabledMatch at h
  refine ⟨List.mem_of_find?_eq_some h, ?_⟩
  have h2 := List.find?_some h
  exact (Bool.and_eq_true _ _ |>.mp h2).1

theorem resolveDispatch_enabledReach {roots : List ModuleT} :
    ∀ (tokens : List String) (m target : ModuleT) (args : List String),
      EnabledReach roots m → resolveDispatch m tokens = .execute target args →
      EnabledReach roots target := by
  intro tokens
  induction tokens with
  | nil =>
      intro m target args hm hres
      unfold resolveDispatch at hres
      by_cases hsub : m.submodules.isEmpty
      · simp only [hsub, if_true] at hres
        obtain ⟨h1, -⟩ := DispatchResult.execute.inj hres
        exact h1 ▸ hm
      · simp [hsub] at hres
  | cons t rest ih =>
      intro m target args hm hres
      unfold resolveDispatch at hres
      by_cases hsub : m.submodules.isEmpty
      · simp only [hsub, if_true] at hres
        obtain ⟨h1, -⟩ := DispatchResult.execute.inj hres
        exact h1 ▸ hm
      · simp only [hsub, Bool.false_eq_true, if_false] at hres
        cases hfind : findEnabledMatch m.submodules t with
        | none => rw [hfind] at hres; exact absurd hres (by simp)
        | some c =>
            rw [hfind] at hres
            obtain ⟨hmem, hen⟩ := findEnabledMatch_mem hfind
            exact ih c target args (.child hm hmem hen) hres

/-- Claim C1.  Dispatch (modelled from the spec: the dispatcher is not among
the repository's source files, only the `Module` tree it traverses is) never
invokes `executeCommand` on a disabled module or on anything below one: if
dispatch of any input over any module tree resolves to executing a module
occurrence, that occurrence is enabled and is reached from the roots through
enabled modules only — so it is neither disabled nor a descendant of a
disabled occurrence, whatever the input text says. -/
theorem dispatch_never_executes_disabled (roots : List ModuleT)
    (input : String) (m : ModuleT) (args : List String)
    (h : dispatch roots input = .execute m args) :
    m.enabled = true ∧ EnabledReach roots m := by
  unfold dispatch at h
  cases htok : tokenizeInput input with
  | nil => rw [htok] at h; simp at h
  | cons t rest =>
      rw [htok] at h
      cases hfind : findEnabledMatch roots t with
      | none => simp [hfind] at h
      | some r =>
          simp only [hfind] at h
          obtain ⟨hmem, hen⟩ := findEnabledMatch_mem hfind
          have hreach := resolveDispatch_enabledReach rest r m args (.root hmem hen) h
          exact ⟨enabledReach_enabled hreach, hreach⟩

/-- The `note add` leaf of the note tree, enabled via the `note` config
entry, as a concrete dispatch witness target. -/
def noteAddLeaf : ModuleT :=
  .mk "add" [] "Add a note to an user" [] true "note" (some ⟨true⟩)

/-- The `note` root with its `add` leaf registered, enabled. -/
def noteRootModule : ModuleT :=
  .mk "note" [] "Add or delete notes from users" [noteAddLeaf] true "note"
    (some ⟨true⟩)

/-- Claim C1, witness: dispatching `note add 123 hello` over the concrete
tree executes the enabled `add` leaf, which is enabled and reached through
enabled modules only. -/
theorem dispatch_never_executes_disabled_witness :
    noteAddLeaf.enabled = true ∧ EnabledReach [noteRootModule] noteAddLeaf :=
  dispatch_never_executes_disabled [noteRootModule] "note add 123 hello"
    noteAddLeaf ["123", "hello"] rfl

theorem findRecord_updateRecord_self (s : NoteStore) (u : String)
    (ns : List Note) : findRecord (updateRecord s u ns) u = some ns := by
  induction s with
  | nil => simp [updateRecord, findRecord]
  | cons hd tl ih =>
      obtain ⟨u', ns'⟩ := hd
      by_cases h : u' = u
      · simp [updateRecord, findRecord, h]
      · simp [updateRecord, findRecord, h, ih]

theorem findRecord_insertRecord_absent (s : NoteStore) (u : String)
    (ns : List Note) (habsent : findRecord s u = none) :
    findRecord (insertRecord s u ns) u = some ns := by
  induction s with
  | nil => simp [insertRecord, findRecord]
  | cons hd tl ih =>
      obtain ⟨u', ns'⟩ := hd
      by_cases h : u' = u
      · simp [findRecord, h] at habsent
      · simp only [findRecord, h, if_false] at habsent
        simpa [insertRecord, findRecord, h] using ih habsent

theorem findRecord_eq_none_of_no_key (s : NoteStore) (u : String)
    (h : u ∉ s.map Prod.fst) : findRecord s u = none := by
  induction s with
  | nil => simp [findRecord]
  | cons hd tl ih =>
      obtain ⟨u', ns'⟩ := hd
      simp only [List.map_cons, List.mem_cons] at h
      push_neg at h
      have : u' ≠ u := fun he => h.1 he.symm
      simp [findRecord, this, ih h.2]

theorem findRecord_deleteRecordOp_self (s : NoteStore) (u : String)
    (hnd : (s.map Prod.fst).Nodup) :
    findRecord (deleteRecordOp s u) u = none := by
  induction s with
  | nil => simp [deleteRecordOp, findRecord]
  | cons hd tl ih =>
      obtain ⟨u', ns'⟩ := hd
      simp only [List.map_cons, List.nodup_cons] at hnd
      by_cases h : u' = u
      · subst h
        simpa [deleteRecordOp] using findRecord_eq_none_of_no_key tl u' hnd.1
      · simp [deleteRecordOp, findRecord, h, ih hnd.2]

/-- Claim C10.  When the target of `note add` is the invoking user, the
handler returns the "You cannot add a note for yourself" error embed before
any document-store access: the store is returned unchanged and the attempted
document-store call trace is empty, whatever the rest of the arguments and
whatever failures might have been pending. -/
theorem addNote_self_error (store : NoteStore) (caller contents date : String)
    (updateFails insertFails : Option String) :
    addHandler store caller caller contents date updateFails insertFails
      = ⟨store, .error "You cannot add a note for yourself", []⟩ := by
  simp [addHandler]

/-- Claim C7.  With the document store healthy and the target distinct from
the caller, `note add` ends with the target's record holding the prior note
list (empty when no record existed) with the new note appended at the end:
a fresh record with exactly the one note, or the old notes preserved in
order, oldest first. -/
theorem addNote_appends (store : NoteStore) (caller target contents date : String)
    (hne : caller ≠ target) :
    findRecord (addHandler store caller target contents date none none).store
        target
      = some ((findRecord store target).getD []
          ++ [⟨contents, caller, date⟩]) := by
  unfold addHandler
  rw [if_neg hne]
  cases hrec : findRecord store target with
  | some notes => simp [findRecord_updateRecord_self]
  | none => simp [findRecord_insertRecord_absent store target _ hrec]

/-- Claim C7, witness: appending to a one-note record keeps the old note
first. -/
theorem addNote_appends_witness :
    findRecord (addHandler [("u", [⟨"old", "a", "d0"⟩])] "c" "u" "new" "d1"
        none none).store "u"
      = some ((findRecord [("u", [⟨"old", "a", "d0"⟩])] "u").getD []
          ++ [⟨"new", "c", "d1"⟩]) :=
  addNote_appends [("u", [⟨"old", "a", "d0"⟩])] "c" "u" "new" "d1" (by decide)

/-- Claim C8.  For a well-formed store (one record per user), `note clear`
on a user with no record returns the "doesn\x27t have any notes" error embed
with the store untouched and only the `findOne` lookup attempted (no
deletion call); on a user with a record it deletes the whole record, after
which `note get` for the same user reports that they have no notes. -/
theorem clearNotes_correct (store : NoteStore) (target targetTag : String)
    (hnd : (store.map Prod.fst).Nodup) :
    (findRecord store target = none →
        clearHandler store target targetTag none
          = ⟨store, .error ("`" ++ targetTag ++ "` doesn\x27t have any notes"),
              [.findOne target]⟩)
      ∧ (findRecord store target ≠ none →
          findRecord (clearHandler store target targetTag none).store target
              = none
            ∧ (getHandler (clearHandler store target targetTag none).store
                  target targetTag).reply
                = .error ("`" ++ targetTag ++ "` doesn\x27t have any notes")) := by
  constructor
  · intro h
    simp [clearHandler, h]
  · intro h
    cases hrec : findRecord store target with
    | none => exact absurd hrec h
    | some ns =>
        have hdel : findRecord (deleteRecordOp store target) target = none :=
          findRecord_deleteRecordOp_self store target hnd
        refine ⟨by simpa [clearHandler, hrec] using hdel, ?_⟩
        simp [clearHandler, hrec, getHandler, hdel]

/-- Claim C8, witness: clearing with no record is the error reply with only
the lookup attempted; clearing an existing record leaves the user with no
record. -/
theorem clearNotes_correct_witness :
    clearHandler ([] : NoteStore) "u" "tag" none
        = ⟨[], .error ("`" ++ "tag" ++ "` doesn\x27t have any notes"),
            [.findOne "u"]⟩
      ∧ findRecord (clearHandler [("u", [⟨"a", "b", "c"⟩])] "u" "tag" none).store
          "u" = none :=
  ⟨(clearNotes_correct [] "u" "tag" (by decide)).1 rfl,
    ((clearNotes_correct [("u", [⟨"a", "b", "c"⟩])] "u" "tag" (by decide)).2
        (by decide)).1⟩

/-- Claim C9.  Starting from a store with no record for the target, `add`
followed by `get` emits an attachment whose parsed JSON is exactly
`{"notes": [{"contents": ..., "addedBy": caller, "date": ...}]}` — the get
output round-trips the single stored note. -/
theorem addThenGet_roundtrip (store : NoteStore)
    (caller target targetTag contents date : String)
    (h0 : findRecord store target = none) (hne : caller ≠ target) :
    (getHandler (addHandler store caller target contents date none none).store
        target targetTag).reply
      = .attachment (.obj [("notes",
          .arr [noteJson ⟨contents, caller, date⟩])]) := by
  unfold addHandler
  rw [if_neg hne]
  simp [h0, getHandler, findRecord_insertRecord_absent store target _ h0]

/-- Claim C9, witness: `add user=5678 note="test"` by caller 1234 then
`get user=5678` round-trips the note. -/
theorem addThenGet_roundtrip_witness :
    (getHandler (addHandler [] "1234" "5678" "test" "2024-01-01 12:00"
        none none).store "5678" "tag").reply
      = .attachment (.obj [("notes",
          .arr [noteJson ⟨"test", "1234", "2024-01-01 12:00"⟩])]) :=
  addThenGet_roundtrip [] "1234" "5678" "tag" "test" "2024-01-01 12:00" rfl
    (by decide)

/-- Claim C6.  The claim says a rejecting document-store call inside the
note `add`/`clear` handlers turns into an ERROR reply carrying the error's
name.  The code violates this: the error embed is built inside the
`.catch` callback and becomes the discarded value of the awaited
expression, after which control falls through to the trailing success
return.  Concretely, with `updateOne` rejecting with name
`MongoServerError` the add handler still replies with the success embed
(and likewise the clear handler when `deleteOne` rejects); the rejection is
indeed not propagated, but no error reply carrying the name is produced.
The dead error-embed construction makes the intent plain, so this is a bug
in the code. -/
theorem dbFailure_returns_success_reply :
    (addHandler [("u", [⟨"old", "a", "d0"⟩])] "c" "u" "hello" "d1"
          (some "MongoServerError") none).reply
        = .success "Succesfully added that note"
      ∧ (clearHandler [("u", [⟨"old", "a", "d0"⟩])] "u" "tag"
            (some "MongoNetworkError")).reply
          = .success ("Succesfully removed notes for `" ++ "tag" ++ "`") :=
  ⟨rfl, rfl⟩
